import Mathlib

/-!
Shallow embedding of the X-AnyLabeling-Server model-plugin contract and the
YOLO11n segmentation post-processing pipeline (`app/models` base module and
`app/models/yolo11n_seg.py`), together with proofs about the behaviour the
specification describes.

Conventions of the embedding:
* Python floats are modelled as rationals (`ℚ`); numpy 2-D arrays as lists of
  rows; Python dictionaries as association lists looked up by first key match.
* Fallible Python code (exceptions) is modelled with `Except String`.
* External OpenCV routines called by the source (`cv2.findContours`,
  `cv2.approxPolyDP`, `cv2.arcLength`, `cv2.contourArea`, `cv2.resize`) are
  modelled from the specification's description of them (§4.3); each such
  definition carries a doc comment saying what is modelled.
-/

namespace XAL

/-- A planar point, as produced by contour extraction: `(x, y)` coordinates. -/
abbrev Point : Type := ℚ × ℚ

/-- A mask: a 2-D grid of per-pixel scores, row major (numpy array of floats). -/
abbrev Mask : Type := List (List ℚ)

/-- A Python parameter value as found in the `params` dictionaries: a float/int,
a bool, or a string. -/
inductive PValue : Type
  | num (q : ℚ)
  | bool (b : Bool)
  | str (s : String)
  deriving DecidableEq, Repr

/-- A Python dict from string keys to parameter values (association list,
first binding wins, mirroring unique-key Python dicts). -/
abbrev Dict : Type := List (String × PValue)

/-- Python `d.get(k)`: the value at the first binding of `k`, if any. -/
def dictGet (d : Dict) (k : String) : Option PValue :=
  (d.find? (fun kv => kv.1 = k)).map (fun kv => kv.2)

/-- The layered lookup `params.get(key, self.params.get(key, default))` used by
`YOLO11nSegmentation.predict` for `conf_threshold`, `iou_threshold` and
`epsilon_factor` (source lines 59-64 and 74-76). -/
def resolveParam (callParams selfParams : Dict) (key : String) (dflt : PValue) : PValue :=
  match dictGet callParams key with
  | some v => v
  | none =>
    match dictGet selfParams key with
    | some v => v
    | none => dflt

/-- Python truthiness of a parameter value (`if show_boxes:`). -/
def PValue.truthy : PValue → Bool
  | .num q => q != 0
  | .bool b => b
  | .str s => s != ""

/-- Using a parameter value as a number, as the arithmetic in
`mask_to_polygon` does: numbers are themselves, bools are 0/1 (Python bool is
numeric), strings raise `TypeError`. -/
def pvalueToNum : PValue → Except String ℚ
  | .num q => .ok q
  | .bool b => .ok (if b then 1 else 0)
  | .str _ => .error "TypeError: str does not support arithmetic comparison"

/-- Height of a row-major 2-D array (numpy `shape[0]`). -/
def rowsH {α : Type} (m : List (List α)) : ℕ := m.length

/-- Width of a row-major 2-D array (numpy `shape[1]`, taken from the first
row; numpy arrays are rectangular). -/
def rowsW {α : Type} (m : List (List α)) : ℕ :=
  (m.head?.map List.length).getD 0

/-- One output annotation, as constructed by `predict`: only the four fields
the source ever sets (`label`, `shape_type`, `points`, `score`); the remaining
optional `Shape` schema fields keep their defaults and are never touched. -/
structure Shape where
  label : String
  shape_type : String
  points : List Point
  score : ℚ
  deriving DecidableEq, Repr

/-- The dictionary returned by `predict`: `{"shapes": ..., "description": ...}`. -/
structure PredictResult where
  shapes : List Shape
  description : String
  deriving DecidableEq, Repr

/-- An input image; only its height/width (`image.shape[:2]`) are inspected by
the embedded code, the pixel data is consumed opaquely by the wrapped model. -/
structure Image where
  rows : List (List (ℚ × ℚ × ℚ))

/-- One detection box from the wrapped model: class id `cls`, confidence
`conf`, and the `xyxy` corner coordinates. -/
structure YoloBox where
  cls : ℕ
  conf : ℚ
  x1 : ℚ
  y1 : ℚ
  x2 : ℚ
  y2 : ℚ
  deriving DecidableEq, Repr

/-- One result object yielded by the wrapped model: the class-name table,
the boxes (possibly absent), and the per-instance masks (possibly absent). -/
structure YoloResult where
  names : ℕ → String
  boxes : Option (List YoloBox)
  masks : Option (List Mask)

/-- The wrapped detection model, consumed as a capability
(`infer(image, conf, iou) -> results`, spec §6); its internals are opaque. -/
abbrev WrappedModel : Type := Image → PValue → PValue → List YoloResult

/-! ### Binarization (source line 17: `(mask * 255).astype(np.uint8)`) -/

/-- One cell of `(mask * 255).astype(np.uint8)`: scaling by 255 and the
float-to-uint8 cast, which truncates toward zero (equal to `⌊255·v⌋` on the
mask score range `v ∈ [0, 1]`). -/
def maskCellUint8 (v : ℚ) : ℤ := ⌊v * 255⌋

/-- Whether a cell of the uint8 mask is treated as foreground by the contour
tracer (`cv2.findContours` treats every nonzero source pixel as foreground). -/
def binPixel (v : ℚ) : Bool := maskCellUint8 v != 0

/-- The binarized mask handed to contour tracing. -/
def maskBinary (mask : Mask) : List (List Bool) :=
  mask.map (fun row => row.map binPixel)

/-! ### Contour tracing, modelled from the spec (§4.3 steps 2-4) -/

/-- Cell of a binary grid, `false` outside the grid. -/
def gridGet (g : List (List Bool)) (rc : ℕ × ℕ) : Bool :=
  ((g[rc.1]?).bind (fun row => row[rc.2]?)).getD false

/-- Concatenation of the images of `f`, in order (avoids version-dependent
names for `flatMap`). -/
def listConcat {α β : Type} (f : α → List β) : List α → List β
  | [] => []
  | x :: xs => f x ++ listConcat f xs

/-- All grid cells in row-major scan order. -/
def allCells (g : List (List Bool)) : List (ℕ × ℕ) :=
  listConcat (fun r => (List.range (rowsW g)).map (fun c => (r, c))) (List.range (rowsH g))

/-- The foreground cells, in scan order. -/
def fgCells (g : List (List Bool)) : List (ℕ × ℕ) :=
  (allCells g).filter (fun rc => gridGet g rc)

/-- The 8-neighbourhood of a cell (clipped at the top/left borders by ℕ
subtraction; the duplicates this produces are harmless for reachability). -/
def neighbors8 (rc : ℕ × ℕ) : List (ℕ × ℕ) :=
  [(rc.1 - 1, rc.2 - 1), (rc.1 - 1, rc.2), (rc.1 - 1, rc.2 + 1),
   (rc.1, rc.2 - 1), (rc.1, rc.2 + 1),
   (rc.1 + 1, rc.2 - 1), (rc.1 + 1, rc.2), (rc.1 + 1, rc.2 + 1)]

/-- One step of region growing inside the foreground. -/
def growOnce (g : List (List Bool)) (s : List (ℕ × ℕ)) : List (ℕ × ℕ) :=
  ((s ++ listConcat neighbors8 s).filter (fun rc => gridGet g rc)).dedup

/-- Modelled from the spec: the 8-connected foreground component of a starting
cell, computed by saturating region growth (grid-size many steps always
suffice). Empty when the start is background. -/
def component (g : List (List Bool)) (start : ℕ × ℕ) : List (ℕ × ℕ) :=
  (growOnce g)^[rowsH g * rowsW g + 1] ([start].filter (fun rc => gridGet g rc))

/-- Scan-order comparison of cells. -/
def cellLt (a b : ℕ × ℕ) : Bool :=
  a.1 < b.1 || (a.1 = b.1 && a.2 < b.2)

/-- The scan-order least cell of a list, if any. -/
def minCell : List (ℕ × ℕ) → Option (ℕ × ℕ)
  | [] => none
  | x :: xs =>
    match minCell xs with
    | none => some x
    | some m => some (if cellLt m x then m else x)

/-- The canonical representatives of the foreground components: the foreground
cells that are the scan-order least cell of their own component. -/
def componentReps (g : List (List Bool)) : List (ℕ × ℕ) :=
  (fgCells g).filter (fun rc => minCell (component g rc) = some rc)

/-- Whether a foreground cell lies on the outer boundary of its region: it
touches the grid border or a 4-neighbour that is background. -/
def isBoundary (g : List (List Bool)) (rc : ℕ × ℕ) : Bool :=
  rc.1 = 0 || rc.2 = 0 || !gridGet g (rc.1 - 1, rc.2) || !gridGet g (rc.1 + 1, rc.2) ||
    !gridGet g (rc.1, rc.2 - 1) || !gridGet g (rc.1, rc.2 + 1)

/-- Modelled from the spec: the outer contour of one component — its boundary
cells as `(x, y)` points. The genuine trace's winding order is external
OpenCV behaviour; it is modelled as row-major scan order, which no property
proved below observes. -/
def contourOf (g : List (List Bool)) (rep : ℕ × ℕ) : List Point :=
  (((allCells g).filter (fun rc => (component g rep).contains rc && isBoundary g rc)).map
    (fun rc => ((rc.2 : ℚ), (rc.1 : ℚ))))

/-- Modelled from the spec: `cv2.findContours(..., RETR_EXTERNAL, ...)` —
the outer contour of every 8-connected foreground component (§4.3 step 2);
`CHAIN_APPROX_SIMPLE` compression of collinear runs is not modelled, as no
property proved below observes it. -/
def findContours (g : List (List Bool)) : List (List Point) :=
  (componentReps g).map (contourOf g)

/-! ### Contour measures, modelled from the spec (§4.3 steps 4-5) -/

/-- Cyclic successor pairing of a point list (each vertex with the next,
the last wrapping to the first). -/
def cyclePairs (pts : List Point) : List (Point × Point) :=
  pts.zip (pts.drop 1 ++ pts.take 1)

/-- Modelled from the spec: `cv2.contourArea` — the absolute enclosed area by
the shoelace formula. Only used to select the dominant contour. -/
def contourArea (pts : List Point) : ℚ :=
  |((cyclePairs pts).foldl (fun acc ab => acc + (ab.1.1 * ab.2.2 - ab.2.1 * ab.1.2)) 0)| / 2

/-- Modelled from the spec: `cv2.arcLength(contour, closed=True)` — the closed
perimeter of the contour. OpenCV sums Euclidean edge lengths, which are
irrational; the perimeter is modelled with taxicab edge lengths to stay in ℚ.
Every property proved below uses only that this quantity is nonnegative and
depends on nothing but the contour. -/
def arcLength (pts : List Point) : ℚ :=
  (cyclePairs pts).foldl (fun acc ab => acc + (|ab.2.1 - ab.1.1| + |ab.2.2 - ab.1.2|)) 0

/-- Python's `max(contours, key=cv2.contourArea)`: the first contour of
greatest area (`max` keeps the earliest maximal element). `none` on an empty
list (the source guards this case). -/
def maxAreaContour : List (List Point) → Option (List Point)
  | [] => none
  | c :: cs => some (cs.foldl (fun best x => if contourArea best < contourArea x then x else best) c)

/-! ### Douglas-Peucker simplification, modelled from the spec (§4.3 step 5) -/

/-- Squared Euclidean distance between two points. -/
def distSq (a b : Point) : ℚ :=
  (b.1 - a.1) ^ 2 + (b.2 - a.2) ^ 2

/-- Squared cross product of `b - a` with `p - a`: the square of (perpendicular
distance from `p` to line `a b`) × (length of `a b`). -/
def crossSq (a b p : Point) : ℚ :=
  ((b.1 - a.1) * (p.2 - a.2) - (b.2 - a.2) * (p.1 - a.1)) ^ 2

/-- Ranking key for the farthest-point search of Douglas-Peucker on the base
segment `a b`: for a fixed base, comparing `crossSq` compares perpendicular
distances; when the base is degenerate the distance to the point `a` is used. -/
def dpKey (a b p : Point) : ℚ :=
  if distSq a b = 0 then distSq a p else crossSq a b p

/-- Whether `p` is farther than `eps` from the base segment `a b` (squared
comparison, exact for the `eps ≥ 0` produced by the source). -/
def dpFar (a b p : Point) (eps : ℚ) : Bool :=
  if distSq a b = 0 then decide (eps ^ 2 < distSq a p) else decide (eps ^ 2 * distSq a b < crossSq a b p)

/-- Splits a list at its first element of maximal key: `some (l, q, r)` with
the input equal to `l ++ q :: r`, `none` on `[]`. -/
def splitAtMax (key : Point → ℚ) : List Point → Option (List Point × Point × List Point)
  | [] => none
  | p :: rest =>
    match splitAtMax key rest with
    | none => some ([], p, rest)
    | some (l, q, r) => if key p < key q then some (p :: l, q, r) else some ([], p, rest)

/-- Modelled from the spec: the recursive core of Douglas-Peucker on the open
polyline `a :: mid ++ [b]`, returning the retained vertices without the final
`b`. Structural fuel bounds the recursion depth; `mid.length` fuel always
suffices (the recursion splits `mid` strictly). -/
def dpF (fuel : ℕ) (a b : Point) (eps : ℚ) (mid : List Point) : List Point :=
  match fuel with
  | 0 => [a]
  | fuel + 1 =>
    match splitAtMax (dpKey a b) mid with
    | none => [a]
    | some (l, q, r) =>
      if dpFar a b q eps then dpF fuel a q eps l ++ dpF fuel q b eps r else [a]

/-- Douglas-Peucker on `a :: mid ++ [b]` without the final point, with enough
fuel to run to completion. -/
def dpE (a b : Point) (eps : ℚ) (mid : List Point) : List Point :=
  dpF (mid.length + 1) a b eps mid

/-- Modelled from the spec: `cv2.approxPolyDP(contour, eps, closed=True)` —
tolerance-based Douglas-Peucker simplification keeping vertices farther than
`eps` from the current base segment. -/
def approxPolyDP (pts : List Point) (eps : ℚ) : List Point :=
  match pts with
  | [] => []
  | [p] => [p]
  | p :: q :: rest =>
    let lastP := (q :: rest).getLast (List.cons_ne_nil q rest)
    dpE p lastP eps ((q :: rest).dropLast) ++ [lastP]

/-! ### `YOLO11nSegmentation.mask_to_polygon` (source lines 12-32) -/

/-- `mask_to_polygon`: binarize the mask, trace outer contours, keep the one of
greatest area, and simplify it with tolerance `epsilon_factor × perimeter` when
`epsilon_factor > 0`; the empty polygon when there is no contour. -/
def mask_to_polygon (mask : Mask) (epsilon_factor : ℚ) : List Point :=
  match maxAreaContour (findContours (maskBinary mask)) with
  | none => []
  | some contour =>
    if 0 < epsilon_factor then approxPolyDP contour (epsilon_factor * arcLength contour)
    else contour

/-! ### Mask resampling (source lines 89-95) -/

/-- Value of a mask cell, 0 out of range (never reached in-range). -/
def maskAt (m : Mask) (r c : ℕ) : ℚ :=
  ((m[r]?).bind (fun row => row[c]?)).getD 0

/-- Clamps a source index into `[0, bound-1]`. -/
def clampIdx (bound : ℕ) (i : ℤ) : ℕ :=
  if i ≤ 0 then 0 else min i.toNat (bound - 1)

/-- Modelled from the spec: one bilinear sample of the source mask at
fractional coordinates `(fy, fx)` with border clamping. -/
def bilinearSample (m : Mask) (srcH srcW : ℕ) (fy fx : ℚ) : ℚ :=
  let y0 : ℤ := ⌊fy⌋
  let x0 : ℤ := ⌊fx⌋
  let ty : ℚ := fy - (y0 : ℚ)
  let tx : ℚ := fx - (x0 : ℚ)
  let v00 := maskAt m (clampIdx srcH y0) (clampIdx srcW x0)
  let v01 := maskAt m (clampIdx srcH y0) (clampIdx srcW (x0 + 1))
  let v10 := maskAt m (clampIdx srcH (y0 + 1)) (clampIdx srcW x0)
  let v11 := maskAt m (clampIdx srcH (y0 + 1)) (clampIdx srcW (x0 + 1))
  (1 - ty) * ((1 - tx) * v00 + tx * v01) + ty * ((1 - tx) * v10 + tx * v11)

/-- Modelled from the spec: `cv2.resize(mask, (orig_w, orig_h), INTER_LINEAR)` —
bilinear resampling to the image resolution. OpenCV raises when the source or
destination is empty; that is the failure mode `predict` can hit on malformed
mask data. -/
def resizeBilinear (m : Mask) (newW newH : ℕ) : Except String Mask :=
  let srcH := rowsH m
  let srcW := rowsW m
  if srcH = 0 ∨ srcW = 0 ∨ newW = 0 ∨ newH = 0 then
    .error "cv2.error: ssize and dsize must be nonempty in resize"
  else
    .ok ((List.range newH).map (fun dy =>
      (List.range newW).map (fun dx =>
        bilinearSample m srcH srcW
          (((dy : ℚ) + 1 / 2) * srcH / newH - 1 / 2)
          (((dx : ℚ) + 1 / 2) * srcW / newW - 1 / 2))))

/-- The dimension check and conditional resample of source lines 89-95: a mask
whose resolution differs from the image's is resampled bilinearly. -/
def resolveMask (origW origH : ℕ) (mask : Mask) : Except String Mask :=
  if rowsH mask ≠ origH ∨ rowsW mask ≠ origW then resizeBilinear mask origW origH
  else .ok mask

/-! ### Shape assembly (source lines 97-148) -/

/-- The ring-closing step of source lines 102-104: append the first point when
the list is nonempty and its first and last points differ. -/
def closeRing (l : List Point) : List Point :=
  if l ≠ [] ∧ l.head? ≠ l.getLast? then l ++ l.head?.toList else l

/-- The rectangle corner points built from a box's `xyxy` (source lines
111-116 and 138-143). -/
def rectPoints (b : YoloBox) : List Point :=
  [(b.x1, b.y1), (b.x2, b.y1), (b.x2, b.y2), (b.x1, b.y2)]

/-- The rectangle `Shape` built from one box. -/
def rectShapeOf (label : String) (b : YoloBox) : Shape :=
  { label := label, shape_type := "rectangle", points := rectPoints b, score := b.conf }

/-- The polygon `Shape` built from a closed point ring. -/
def polyShapeOf (label : String) (score : ℚ) (pts : List Point) : Shape :=
  { label := label, shape_type := "polygon", points := pts, score := score }

/-- The body of the mask loop of `predict` for one instance (source lines
84-127): look up the instance's box, resample the mask if needed, extract and
simplify the polygon, drop the instance when it has fewer than 3 points,
otherwise emit the (optional) rectangle followed by the closed polygon. -/
def processMaskInstance (origW origH : ℕ) (eps : ℚ) (show_boxes : Bool)
    (names : ℕ → String) (boxes : Option (List YoloBox)) (mask : Mask) (i : ℕ) :
    Except String (List Shape) :=
  match boxes with
  | none => .error "TypeError: NoneType object is not subscriptable"
  | some bs =>
    match bs[i]? with
    | none => .error "IndexError: list index out of range"
    | some box =>
      let label := names box.cls
      let conf := box.conf
      match resolveMask origW origH mask with
      | .error e => .error e
      | .ok m =>
        let points := mask_to_polygon m eps
        if points.length < 3 then .ok []
        else
          .ok ((if show_boxes then [rectShapeOf label box] else []) ++
            [polyShapeOf label conf (closeRing points)])

/-- The `enumerate(mask_data)` loop (source line 84): instances are processed
in order; the first uncaught exception aborts the whole call. -/
def processMasks (origW origH : ℕ) (eps : ℚ) (show_boxes : Bool)
    (names : ℕ → String) (boxes : Option (List YoloBox)) (i : ℕ) :
    List Mask → Except String (List Shape)
  | [] => .ok []
  | m :: ms =>
    match processMaskInstance origW origH eps show_boxes names boxes m i with
    | .error e => .error e
    | .ok s1 =>
      match processMasks origW origH eps show_boxes names boxes (i + 1) ms with
      | .error e => .error e
      | .ok s2 => .ok (s1 ++ s2)

/-- One result object of the wrapped model (source lines 78-146): the mask
branch when masks are present, the box-only branch when only boxes are, and
nothing when neither is. -/
def processResult (origW origH : ℕ) (eps : ℚ) (show_boxes : Bool) (r : YoloResult) :
    Except String (List Shape) :=
  match r.masks with
  | some mask_data => processMasks origW origH eps show_boxes r.names r.boxes 0 mask_data
  | none =>
    match r.boxes with
    | some bs => .ok (bs.map (fun b => rectShapeOf (r.names b.cls) b))
    | none => .ok []

/-- The outer `for result in results` loop. -/
def processResults (origW origH : ℕ) (eps : ℚ) (show_boxes : Bool) :
    List YoloResult → Except String (List Shape)
  | [] => .ok []
  | r :: rs =>
    match processResult origW origH eps show_boxes r with
    | .error e => .error e
    | .ok s1 =>
      match processResults origW origH eps show_boxes rs with
      | .error e => .error e
      | .ok s2 => .ok (s1 ++ s2)

/-- `YOLO11nSegmentation.predict` (source lines 47-148): resolve thresholds
with call-time → configured → default fallback, run the wrapped model, read
`show_boxes` from the configured parameters only (source line 73), resolve
`epsilon_factor`, assemble the shapes, and return them with an empty
description. -/
def predictImpl (selfParams : Dict) (model : WrappedModel) (image : Image) (params : Dict) :
    Except String PredictResult :=
  let conf := resolveParam params selfParams "conf_threshold" (.num (1 / 4))
  let iou := resolveParam params selfParams "iou_threshold" (.num (7 / 10))
  let origH := rowsH image.rows
  let origW := rowsW image.rows
  let results := model image conf iou
  let show_boxes := (((dictGet selfParams "show_boxes").getD (.bool false))).truthy
  let epsPV := resolveParam params selfParams "epsilon_factor" (.num (1 / 1000))
  match pvalueToNum epsPV with
  | .error e => .error e
  | .ok eps =>
    match processResults origW origH eps show_boxes results with
    | .error e => .error e
    | .ok shapes => .ok { shapes := shapes, description := "" }

/-! ### Plugin lifecycle, modelled from the spec (§4.1)

The state machine and the `NotLoadedError` rejection live in the hosting
service, which is not part of the two source modules; they are modelled from
the specification: `Unloaded → Loaded` on a successful `load`, `Unloaded →
Failed` on a failed one, `Loaded → Unloaded` on `unload` (which deletes the
wrapped-model attribute, source lines 150-153), and `predict` requires the
`Loaded` state. -/

/-- Lifecycle states of a plugin (spec §4.1). -/
inductive LifeState : Type
  | unloaded
  | loaded
  | failed
  deriving DecidableEq, Repr

/-- Modelled from the spec: a plugin instance — its configured parameters, its
lifecycle state and the wrapped model acquired by `load` (absent otherwise,
as `unload` deletes the attribute). -/
structure Plugin where
  selfParams : Dict
  state : LifeState
  model : Option WrappedModel

/-- A freshly constructed plugin: never loaded. -/
def mkPlugin (selfParams : Dict) : Plugin :=
  { selfParams := selfParams, state := .unloaded, model := none }

/-- Modelled from the spec: `load()` — acquiring the wrapped model either
succeeds (`Loaded`) or fails (`Failed`, no model retained). -/
def pluginLoad (p : Plugin) (acquired : Option WrappedModel) : Plugin :=
  match acquired with
  | some m => { p with state := .loaded, model := some m }
  | none => { p with state := .failed, model := none }

/-- `unload()` (source lines 150-153, lifecycle from spec §4.1): release the
wrapped model; afterwards the plugin is `Unloaded`. -/
def pluginUnload (p : Plugin) : Plugin :=
  { p with state := .unloaded, model := none }

/-- Errors surfaced by a `predict` call on a plugin. -/
inductive PredictError : Type
  | notLoaded
  | runtime (msg : String)
  deriving DecidableEq, Repr

/-- Modelled from the spec: `predict` on a plugin requires the `Loaded` state
(with its model attribute present) and otherwise fails with `NotLoadedError`;
when loaded it runs `YOLO11nSegmentation.predict`. -/
def pluginPredict (p : Plugin) (image : Image) (params : Dict) :
    Except PredictError PredictResult :=
  match p.state, p.model with
  | .loaded, some m =>
    match predictImpl p.selfParams m image params with
    | .error e => .error (.runtime e)
    | .ok r => .ok r
  | _, _ => .error .notLoaded

/-! ### `parse_prompts` (`app/models` base module, lines 86-109) -/

/-- Python `str` whitespace as stripped by `str.strip()`. -/
def isPyWs (c : Char) : Bool :=
  c = ' ' || c = '\t' || c = '\n' || c = '\r' || c = '\x0b' || c = '\x0c'

/-- Python `s.strip()`: remove leading and trailing whitespace. -/
def pyStrip (s : List Char) : List Char :=
  ((s.dropWhile isPyWs).reverse.dropWhile isPyWs).reverse

/-- `re.split` on a character class: split the text at every occurrence of any
of the class characters; adjacent separators produce empty pieces. -/
def splitOnSeps (seps : List Char) : List Char → List (List Char)
  | [] => [[]]
  | c :: rest =>
    match splitOnSeps seps rest with
    | [] => [[c]]
    | piece :: pieces =>
      if c ∈ seps then [] :: piece :: pieces else (c :: piece) :: pieces

/-- `dict.fromkeys(prompts)` used for deduplication: iterate left to right,
keeping each prompt only on its first occurrence. -/
def dedupFirst (l : List (List Char)) : List (List Char) :=
  l.foldl (fun acc x => if x ∈ acc then acc else acc ++ [x]) []

/-- The default `separators=[",", "."]`. -/
def defaultSeparators : List (List Char) := [[','], ['.']]

/-- `parse_prompts` (base module lines 86-109): return `[]` for
whitespace-only text, otherwise split on every character of every separator,
strip each piece, drop the empty ones, and deduplicate when asked to. -/
def parse_prompts (text : List Char) (separators : List (List Char))
    (deduplicate : Bool) : List (List Char) :=
  if pyStrip text = [] then []
  else
    let prompts := ((splitOnSeps (listConcat id separators) text).map pyStrip).filter
      (fun p => p ≠ [])
    if deduplicate then dedupFirst prompts else prompts

/-- Deduplication as the spec words it: walk the sequence keeping each piece
only when it has not been seen before, so later duplicates are removed and
first occurrences keep their order. -/
def specDedupGo (seen : List (List Char)) : List (List Char) → List (List Char)
  | [] => []
  | x :: xs => if x ∈ seen then specDedupGo seen xs else x :: specDedupGo (seen ++ [x]) xs

/-- Deduplication from an empty memory. -/
def specDedup (l : List (List Char)) : List (List Char) :=
  specDedupGo [] l

/-- The Prompt Parser as the spec words it (§4.4): split on any separator
character, trim whitespace from each piece, drop empty pieces, and remove
later duplicates when deduplicating. (No special case for whitespace-only
input: its pieces are all whitespace and are dropped anyway.) -/
def parseSpec (text : List Char) (separators : List (List Char))
    (deduplicate : Bool) : List (List Char) :=
  let pieces := ((splitOnSeps (listConcat id separators) text).map pyStrip).filter
    (fun p => p ≠ [])
  if deduplicate then specDedup pieces else pieces

/-- Decidable equality of `Except` results, for evaluating the embedded
pipeline on concrete inputs. -/
instance {ε α : Type} [DecidableEq ε] [DecidableEq α] : DecidableEq (Except ε α) := fun a b =>
  match a, b with
  | .error e1, .error e2 =>
    if h : e1 = e2 then isTrue (by rw [h])
    else isFalse (fun hc => h (Except.error.inj hc))
  | .error _, .ok _ => isFalse (fun hc => Except.noConfusion hc)
  | .ok _, .error _ => isFalse (fun hc => Except.noConfusion hc)
  | .ok a1, .ok a2 =>
    if h : a1 = a2 then isTrue (by rw [h])
    else isFalse (fun hc => h (Except.ok.inj hc))

/-! ### Concrete data used to exercise the pipeline -/

/-- A 2×2 all-foreground mask. -/
def cxMask2 : Mask := [[1, 1], [1, 1]]

/-- A 1×1 all-background mask. -/
def cxMask0 : Mask := [[0]]

/-- A detection box. -/
def cxBox : YoloBox := { cls := 0, conf := 1 / 2, x1 := 0, y1 := 0, x2 := 1, y2 := 1 }

/-- A 2×2 input image. -/
def cxImg2 : Image := { rows := [[(0, 0, 0), (0, 0, 0)], [(0, 0, 0), (0, 0, 0)]] }

/-- An empty input image. -/
def cxImg0 : Image := { rows := [] }

/-- A constant class-name table. -/
def cxNames : ℕ → String := fun _ => "cat"

/-- A wrapped model yielding one mask-bearing instance on every call. -/
def cxMaskModel : WrappedModel :=
  fun _ _ _ => [{ names := cxNames, boxes := some [cxBox], masks := some [cxMask2] }]

/-- A call-time parameter dict carrying `show_boxes=True` (and a zero
`epsilon_factor` so extraction keeps the raw contour). -/
def cxShowBoxesParams : Dict := [("show_boxes", .bool true), ("epsilon_factor", .num 0)]

/-- A malformed result: one mask but an empty box list, so indexing the boxes
raises `IndexError`. -/
def cxBadResult : YoloResult := { names := cxNames, boxes := some [], masks := some [cxMask2] }

/-- A well-formed box-only result. -/
def cxGoodResult : YoloResult := { names := cxNames, boxes := some [cxBox], masks := none }

/-- A wrapped model yielding the malformed instance first, then a well-formed
one. -/
def cxBadThenGoodModel : WrappedModel := fun _ _ _ => [cxBadResult, cxGoodResult]

/-- A wrapped model yielding only the well-formed instance. -/
def cxGoodOnlyModel : WrappedModel := fun _ _ _ => [cxGoodResult]

/-- A wrapped model yielding no detections. -/
def cxEmptyModel : WrappedModel := fun _ _ _ => []

attribute [local semireducible] Rat.add Rat.mul Rat.sub Rat.inv

/-! ### Lemmas about the Douglas-Peucker model -/

theorem splitAtMax_ne_none (key : Point → ℚ) (p : Point) (rest : List Point) :
    splitAtMax key (p :: rest) ≠ none := by
  simp only [splitAtMax]
  cases h : splitAtMax key rest with
  | none => simp
  | some lqr =>
    obtain ⟨l1, q, r⟩ := lqr
    by_cases hk : key p < key q <;> simp [hk]

theorem splitAtMax_append {key : Point → ℚ} :
    ∀ {l l1 : List Point} {q : Point} {r : List Point},
      splitAtMax key l = some (l1, q, r) → l = l1 ++ q :: r := by
  intro l
  induction l with
  | nil => intro l1 q r h; simp [splitAtMax] at h
  | cons p rest ih =>
    intro l1 q r h
    simp only [splitAtMax] at h
    cases hs : splitAtMax key rest with
    | none =>
      rw [hs] at h
      simp only [Option.some.injEq, Prod.mk.injEq] at h
      obtain ⟨h1, h2, h3⟩ := h
      subst h1; subst h2; subst h3; rfl
    | some lqr =>
      obtain ⟨a, b, c⟩ := lqr
      rw [hs] at h
      by_cases hk : key p < key b
      · simp only [hk, if_true, Option.some.injEq, Prod.mk.injEq] at h
        obtain ⟨h1, h2, h3⟩ := h
        subst h1; subst h2; subst h3
        have := ih hs
        simp [this]
      · simp only [hk, if_false, Option.some.injEq, Prod.mk.injEq] at h
        obtain ⟨h1, h2, h3⟩ := h
        subst h1; subst h2; subst h3; rfl

theorem dpF_length_pos (fuel : ℕ) :
    ∀ (a b : Point) (eps : ℚ) (mid : List Point), 1 ≤ (dpF fuel a b eps mid).length := by
  induction fuel with
  | zero => intro a b eps mid; simp [dpF]
  | succ n ih =>
    intro a b eps mid
    simp only [dpF]
    cases hs : splitAtMax (dpKey a b) mid with
    | none => simp
    | some lqr =>
      obtain ⟨l, q, r⟩ := lqr
      by_cases hf : dpFar a b q eps
      · simp only [hf, if_true, List.length_append]
        have h1 := ih a q eps l
        omega
      · simp [hf]

theorem dpF_length_le (fuel : ℕ) :
    ∀ (a b : Point) (eps : ℚ) (mid : List Point), mid.length < fuel →
      (dpF fuel a b eps mid).length ≤ 1 + mid.length := by
  induction fuel with
  | zero => intro a b eps mid h; omega
  | succ n ih =>
    intro a b eps mid hlen
    simp only [dpF]
    split
    · simp
    · rename_i l q r hs
      have hdec := splitAtMax_append hs
      have hmid : mid.length = l.length + 1 + r.length := by
        subst hdec; simp [List.length_append]; omega
      by_cases hf : dpFar a b q eps = true
      · rw [if_pos hf]
        simp only [List.length_append]
        have h1 := ih a q eps l (by omega)
        have h2 := ih q b eps r (by omega)
        omega
      · rw [if_neg hf]
        simp only [List.length_cons, List.length_nil]
        omega

theorem distSq_nonneg (a b : Point) : 0 ≤ distSq a b := by
  unfold distSq; positivity

theorem crossSq_nonneg (a b p : Point) : 0 ≤ crossSq a b p := by
  unfold crossSq; positivity

theorem dpFar_mono {a b q : Point} {e1 e2 : ℚ} (h0 : 0 ≤ e1) (h12 : e1 ≤ e2)
    (h : dpFar a b q e2 = true) : dpFar a b q e1 = true := by
  unfold dpFar at h ⊢
  have hsq : e1 ^ 2 ≤ e2 ^ 2 := by nlinarith
  by_cases hd : distSq a b = 0
  · simp only [hd, if_true, decide_eq_true_eq] at h ⊢
    linarith
  · simp only [hd, if_false, decide_eq_true_eq] at h ⊢
    have hnn := distSq_nonneg a b
    nlinarith

theorem dpF_mono (fuel : ℕ) :
    ∀ (a b : Point) (e1 e2 : ℚ) (mid : List Point), mid.length < fuel → 0 ≤ e1 → e1 ≤ e2 →
      (dpF fuel a b e2 mid).length ≤ (dpF fuel a b e1 mid).length := by
  induction fuel with
  | zero => intro a b e1 e2 mid h; omega
  | succ n ih =>
    intro a b e1 e2 mid hlen h0 h12
    simp only [dpF]
    split
    · simp
    · rename_i l q r hs
      have hdec := splitAtMax_append hs
      have hmid : mid.length = l.length + 1 + r.length := by
        subst hdec; simp [List.length_append]; omega
      by_cases hf2 : dpFar a b q e2 = true
      · have hf1 : dpFar a b q e1 = true := dpFar_mono h0 h12 hf2
        rw [if_pos hf2, if_pos hf1]
        simp only [List.length_append]
        have hl := ih a q e1 e2 l (by omega) h0 h12
        have hr := ih q b e1 e2 r (by omega) h0 h12
        omega
      · rw [if_neg hf2]
        by_cases hf1 : dpFar a b q e1 = true
        · rw [if_pos hf1]
          simp only [List.length_append, List.length_cons, List.length_nil]
          have h1 := dpF_length_pos n a q e1 l
          have h2 := dpF_length_pos n q b e1 r
          omega
        · rw [if_neg hf1]

theorem approxPolyDP_length_le (pts : List Point) (eps : ℚ) :
    (approxPolyDP pts eps).length ≤ pts.length := by
  match pts with
  | [] => simp [approxPolyDP]
  | [p] => simp [approxPolyDP]
  | p :: q :: rest =>
    simp only [approxPolyDP, dpE, List.length_append]
    have hmidlen : ((q :: rest).dropLast).length = rest.length := by
      simp [List.length_dropLast]
    have h := dpF_length_le (((q :: rest).dropLast).length + 1) p
      ((q :: rest).getLast (List.cons_ne_nil q rest)) eps ((q :: rest).dropLast)
      (by omega)
    simp only [List.length_cons, List.length_nil]
    omega

theorem approxPolyDP_mono (pts : List Point) (e1 e2 : ℚ) (h0 : 0 ≤ e1) (h12 : e1 ≤ e2) :
    (approxPolyDP pts e2).length ≤ (approxPolyDP pts e1).length := by
  match pts with
  | [] => simp [approxPolyDP]
  | [p] => simp [approxPolyDP]
  | p :: q :: rest =>
    simp only [approxPolyDP, dpE, List.length_append]
    have h := dpF_mono (((q :: rest).dropLast).length + 1) p
      ((q :: rest).getLast (List.cons_ne_nil q rest)) e1 e2 ((q :: rest).dropLast)
      (by omega) h0 h12
    omega

theorem arcLength_nonneg (pts : List Point) : 0 ≤ arcLength pts := by
  unfold arcLength
  have key : ∀ (l : List (Point × Point)) (acc : ℚ), 0 ≤ acc →
      0 ≤ l.foldl (fun a ab => a + (|ab.2.1 - ab.1.1| + |ab.2.2 - ab.1.2|)) acc := by
    intro l
    induction l with
    | nil => intro acc h; simpa using h
    | cons ab t ih =>
      intro acc h
      simp only [List.foldl_cons]
      apply ih
      have h1 := abs_nonneg (ab.2.1 - ab.1.1)
      have h2 := abs_nonneg (ab.2.2 - ab.1.2)
      linarith
  exact key _ 0 le_rfl

/-! ### Lemmas about binarization and degenerate masks -/

theorem gridGet_maskBinary_false {mask : Mask}
    (h : ∀ row ∈ mask, ∀ v ∈ row, maskCellUint8 v = 0) (rc : ℕ × ℕ) :
    gridGet (maskBinary mask) rc = false := by
  unfold gridGet maskBinary
  rw [List.getElem?_map]
  cases hr : mask[rc.1]? with
  | none => simp
  | some row =>
    simp only [Option.map_some', Option.some_bind]
    rw [List.getElem?_map]
    cases hv : row[rc.2]? with
    | none => simp
    | some v =>
      have hrow : row ∈ mask := List.getElem?_mem hr
      have hmem : v ∈ row := List.getElem?_mem hv
      have h0 : maskCellUint8 v = 0 := h row hrow v hmem
      simp [binPixel, h0]

theorem fgCells_maskBinary_nil {mask : Mask}
    (h : ∀ row ∈ mask, ∀ v ∈ row, maskCellUint8 v = 0) :
    fgCells (maskBinary mask) = [] := by
  unfold fgCells
  apply List.filter_eq_nil_iff.mpr
  intro rc _
  simp [gridGet_maskBinary_false h rc]

theorem mask_to_polygon_allzero {mask : Mask}
    (h : ∀ row ∈ mask, ∀ v ∈ row, maskCellUint8 v = 0) (e : ℚ) :
    mask_to_polygon mask e = [] := by
  unfold mask_to_polygon findContours componentReps
  rw [fgCells_maskBinary_nil h]
  simp [maxAreaContour]

/-! ### Lemmas about the prompt parser -/

theorem pyStrip_nil_all_ws {l : List Char} (h : pyStrip l = []) :
    ∀ c ∈ l, isPyWs c = true := by
  unfold pyStrip at h
  rw [List.reverse_eq_nil_iff, List.dropWhile_eq_nil_iff] at h
  intro c hc
  have hsplit := List.takeWhile_append_dropWhile (p := isPyWs) (l := l)
  rw [← hsplit] at hc
  rcases List.mem_append.mp hc with h1 | h2
  · exact List.mem_takeWhile_imp h1
  · exact h c (List.mem_reverse.mpr h2)

theorem pyStrip_all_ws_nil {l : List Char} (h : ∀ c ∈ l, isPyWs c = true) :
    pyStrip l = [] := by
  unfold pyStrip
  have h1 : l.dropWhile isPyWs = [] := List.dropWhile_eq_nil_iff.mpr h
  rw [h1]
  simp

theorem splitOnSeps_ne_nil (seps : List Char) (l : List Char) :
    splitOnSeps seps l ≠ [] := by
  induction l with
  | nil => simp [splitOnSeps]
  | cons c rest ih =>
    simp only [splitOnSeps]
    cases h : splitOnSeps seps rest with
    | nil => simp
    | cons piece pieces => by_cases hc : c ∈ seps <;> simp [hc]

theorem splitOnSeps_subset {seps : List Char} :
    ∀ {l piece : List Char}, piece ∈ splitOnSeps seps l → ∀ {c : Char}, c ∈ piece → c ∈ l := by
  intro l
  induction l with
  | nil =>
    intro piece hp c hc
    simp only [splitOnSeps, List.mem_singleton] at hp
    subst hp
    simp at hc
  | cons x rest ih =>
    intro piece hp c hc
    simp only [splitOnSeps] at hp
    cases h : splitOnSeps seps rest with
    | nil => exact absurd h (splitOnSeps_ne_nil seps rest)
    | cons p0 ps =>
      rw [h] at hp
      have hp2 : piece ∈ (if x ∈ seps then [] :: p0 :: ps else (x :: p0) :: ps) := hp
      have hp0 : p0 ∈ splitOnSeps seps rest := by rw [h]; exact List.mem_cons_self p0 ps
      by_cases hx : x ∈ seps
      · rw [if_pos hx] at hp2
        rcases List.mem_cons.mp hp2 with hpe | hpm
        · subst hpe; simp at hc
        · have hmem : piece ∈ splitOnSeps seps rest := by rw [h]; exact hpm
          exact List.mem_cons_of_mem x (ih hmem hc)
      · rw [if_neg hx] at hp2
        rcases List.mem_cons.mp hp2 with hpe | hpm
        · subst hpe
          rcases List.mem_cons.mp hc with hcx | hcp
          · subst hcx; exact List.mem_cons_self c rest
          · exact List.mem_cons_of_mem x (ih hp0 hcp)
        · have hmem : piece ∈ splitOnSeps seps rest := by
            rw [h]; exact List.mem_cons_of_mem p0 hpm
          exact List.mem_cons_of_mem x (ih hmem hc)

theorem parse_pieces_all_ws_nil {text : List Char} (seps : List Char)
    (h : ∀ c ∈ text, isPyWs c = true) :
    ((splitOnSeps seps text).map pyStrip).filter (fun p => p ≠ []) = [] := by
  apply List.filter_eq_nil_iff.mpr
  intro p hp
  rcases List.mem_map.mp hp with ⟨piece, hpiece, hstrip⟩
  subst hstrip
  simp only [ne_eq, decide_not, Bool.not_eq_eq_eq_not, Bool.not_true, decide_eq_false_iff_not,
    Decidable.not_not]
  apply pyStrip_all_ws_nil
  intro c hc
  exact h c (splitOnSeps_subset hpiece hc)

theorem foldl_dedup_go (l : List (List Char)) :
    ∀ acc, l.foldl (fun acc x => if x ∈ acc then acc else acc ++ [x]) acc =
      acc ++ specDedupGo acc l := by
  induction l with
  | nil => intro acc; simp [specDedupGo]
  | cons x xs ih =>
    intro acc
    simp only [List.foldl_cons, specDedupGo]
    by_cases hx : x ∈ acc
    · rw [if_pos hx, if_pos hx, ih acc]
    · rw [if_neg hx, if_neg hx, ih (acc ++ [x])]
      simp

theorem dedupFirst_eq_specDedup (l : List (List Char)) : dedupFirst l = specDedup l := by
  unfold dedupFirst specDedup
  simpa using foldl_dedup_go l []

/-! ### Lemmas about parameter resolution and predict -/

theorem dictGet_cons_ne (kOther : String) (v : PValue) (d : Dict) (k : String)
    (h : kOther ≠ k) : dictGet ((kOther, v) :: d) k = dictGet d k := by
  unfold dictGet
  rw [List.find?_cons_of_neg]
  simp [h]

theorem resolveParam_cons_ne (kOther : String) (v : PValue) (call self : Dict)
    (k : String) (d : PValue) (h : kOther ≠ k) :
    resolveParam ((kOther, v) :: call) self k d = resolveParam call self k d := by
  unfold resolveParam
  rw [dictGet_cons_ne kOther v call k h]

/-! ### Claim theorems -/

/-- C3 counterexample: the strictly positive mask value 1/510 is treated as
background, not foreground — its scaling to uint8 truncates to 0, and a mask
holding it yields no contour at all before tracing, refuting the claim that
every strictly positive mask value is foreground. -/
theorem c3_counterexample :
    (0 : ℚ) < 1 / 510 ∧ binPixel (1 / 510) = false
      ∧ mask_to_polygon [[1 / 510]] (1 / 1000) = [] :=
  ⟨by norm_num, by decide, by decide⟩

/-- C3 amended: binarization treats a pixel as foreground exactly when
`⌊255·v⌋ ≠ 0`, i.e. (for nonnegative scores) when `v ≥ 1/255`; positive values
below `1/255` are background. -/
theorem c3_amended_threshold :
    ∀ v : ℚ, 0 ≤ v → (binPixel v = true ↔ 1 / 255 ≤ v) := by
  intro v hv
  unfold binPixel maskCellUint8
  rw [bne_iff_ne, ne_eq]
  constructor
  · intro h
    have h0 : 0 ≤ ⌊v * 255⌋ := Int.floor_nonneg.mpr (by positivity)
    have h1 : (1 : ℤ) ≤ ⌊v * 255⌋ := by omega
    have h2 : (1 : ℚ) ≤ v * 255 := by exact_mod_cast Int.le_floor.mp h1
    linarith
  · intro h
    have h2 : (1 : ℚ) ≤ v * 255 := by linarith
    have h1 : (1 : ℤ) ≤ ⌊v * 255⌋ := Int.le_floor.mpr (by exact_mod_cast h2)
    omega

/-- C3 amended, exercised at the concrete score 1. -/
theorem c3_amended_witness :
    (0 : ℚ) ≤ 1 ∧ (binPixel 1 = true ↔ (1 : ℚ) / 255 ≤ 1) :=
  ⟨by norm_num, c3_amended_threshold 1 (by norm_num)⟩

/-- C4: an instance whose extracted polygon has fewer than 3 points yields no
shape at all — neither polygon nor rectangle; and a mask with no foreground
pixel extracts to the empty polygon. -/
theorem c4_degenerate_mask_emits_nothing :
    (∀ (origW origH : ℕ) (eps : ℚ) (sb : Bool) (names : ℕ → String) (bs : List YoloBox)
      (box : YoloBox) (i : ℕ) (mask m : Mask),
      bs[i]? = some box →
      resolveMask origW origH mask = .ok m →
      (mask_to_polygon m eps).length < 3 →
      processMaskInstance origW origH eps sb names (some bs) mask i = .ok [])
    ∧ (∀ (mask : Mask) (e : ℚ),
      (∀ row ∈ mask, ∀ v ∈ row, maskCellUint8 v = 0) → mask_to_polygon mask e = []) := by
  constructor
  · intro origW origH eps sb names bs box i mask m hbox hres hlen
    simp only [processMaskInstance, hbox, hres]
    rw [if_pos hlen]
  · intro mask e h
    exact mask_to_polygon_allzero h e

/-- C4, exercised: a 1×1 zero mask with matching dimensions emits nothing. -/
theorem c4_witness :
    ([cxBox][0]? = some cxBox)
    ∧ resolveMask 1 1 cxMask0 = .ok cxMask0
    ∧ (mask_to_polygon cxMask0 0).length < 3
    ∧ processMaskInstance 1 1 0 true cxNames (some [cxBox]) cxMask0 0 = .ok [] :=
  ⟨by decide, by decide, by decide,
    c4_degenerate_mask_emits_nothing.1 1 1 0 true cxNames [cxBox] cxBox 0 cxMask0 cxMask0
      (by decide) (by decide) (by decide)⟩

/-- C5: a mask instance whose polygon has at least 3 points emits exactly the
two shapes [rectangle, polygon] in that order when `show_boxes` is enabled,
and exactly [polygon] when it is disabled. -/
theorem c5_mask_instance_shape_order :
    ∀ (origW origH : ℕ) (eps : ℚ) (names : ℕ → String) (bs : List YoloBox)
      (box : YoloBox) (i : ℕ) (mask m : Mask),
      bs[i]? = some box →
      resolveMask origW origH mask = .ok m →
      3 ≤ (mask_to_polygon m eps).length →
      processMaskInstance origW origH eps true names (some bs) mask i =
        .ok [rectShapeOf (names box.cls) box,
          polyShapeOf (names box.cls) box.conf (closeRing (mask_to_polygon m eps))]
      ∧ processMaskInstance origW origH eps false names (some bs) mask i =
        .ok [polyShapeOf (names box.cls) box.conf (closeRing (mask_to_polygon m eps))] := by
  intro origW origH eps names bs box i mask m hbox hres hlen
  have hnot : ¬ (mask_to_polygon m eps).length < 3 := by omega
  constructor <;>
    (simp only [processMaskInstance, hbox, hres]
     rw [if_neg hnot]
     simp)

/-- C5, exercised at a 2×2 all-foreground mask whose raw contour has 4
points. -/
theorem c5_witness :
    (3 ≤ (mask_to_polygon cxMask2 0).length)
    ∧ processMaskInstance 2 2 0 true cxNames (some [cxBox]) cxMask2 0 =
        .ok [rectShapeOf (cxNames cxBox.cls) cxBox,
          polyShapeOf (cxNames cxBox.cls) cxBox.conf (closeRing (mask_to_polygon cxMask2 0))]
    ∧ processMaskInstance 2 2 0 false cxNames (some [cxBox]) cxMask2 0 =
        .ok [polyShapeOf (cxNames cxBox.cls) cxBox.conf (closeRing (mask_to_polygon cxMask2 0))] := by
  have h := c5_mask_instance_shape_order 2 2 0 cxNames [cxBox] cxBox 0 cxMask2 cxMask2
    (by decide) (by decide) (by decide)
  exact ⟨by decide, h.1, h.2⟩

/-- C8: the ring-closing step is idempotent — a nonempty point list whose
first point already equals its last is left unchanged. -/
theorem c8_closeRing_idempotent :
    ∀ (l : List Point), l ≠ [] → l.head? = l.getLast? → closeRing l = l := by
  intro l h1 h2
  unfold closeRing
  have hcon : ¬ (l ≠ [] ∧ l.head? ≠ l.getLast?) := fun hc => hc.2 h2
  rw [if_neg hcon]

/-- C8, exercised at the closed one-point ring. -/
theorem c8_witness :
    ([((0 : ℚ), (0 : ℚ))] ≠ ([] : List Point))
    ∧ ([((0 : ℚ), (0 : ℚ))] : List Point).head? = [((0 : ℚ), (0 : ℚ))].getLast?
    ∧ closeRing [((0 : ℚ), (0 : ℚ))] = [((0 : ℚ), (0 : ℚ))] :=
  ⟨by decide, by decide, c8_closeRing_idempotent [((0 : ℚ), (0 : ℚ))] (by decide) (by decide)⟩

/-- C9: polygon simplification is monotonic in its tolerance — for the same
mask, `e1 ≤ e2` implies extraction with `e2` returns at most as many points as
extraction with `e1`. -/
theorem c9_simplification_monotonic (mask : Mask) (e1 e2 : ℚ) (h : e1 ≤ e2) :
    (mask_to_polygon mask e2).length ≤ (mask_to_polygon mask e1).length := by
  unfold mask_to_polygon
  split
  · simp
  · rename_i c heq
    by_cases h2 : 0 < e2
    · by_cases h1 : 0 < e1
      · rw [if_pos h1, if_pos h2]
        exact approxPolyDP_mono c (e1 * arcLength c) (e2 * arcLength c)
          (mul_nonneg h1.le (arcLength_nonneg c))
          (mul_le_mul_of_nonneg_right h (arcLength_nonneg c))
      · rw [if_neg h1, if_pos h2]
        exact approxPolyDP_length_le c (e2 * arcLength c)
    · have h1 : ¬ 0 < e1 := fun hc => h2 (lt_of_lt_of_le hc h)
      rw [if_neg h1, if_neg h2]

/-- C9, exercised at the 2×2 all-foreground mask with tolerances 0 and 1. -/
theorem c9_witness :
    (0 : ℚ) ≤ 1 ∧ (mask_to_polygon cxMask2 1).length ≤ (mask_to_polygon cxMask2 0).length :=
  ⟨by norm_num, c9_simplification_monotonic cxMask2 0 1 (by norm_num)⟩

/-- C1 (lifecycle modelled from the spec): a plugin not in the Loaded state —
freshly constructed or unloaded — rejects `predict` with `NotLoadedError`;
after a successful `load` the same call succeeds; after `unload` it rejects
again. -/
theorem c1_lifecycle_not_loaded :
    ∀ (p : Plugin) (m : WrappedModel) (image : Image) (params : Dict) (r : PredictResult),
      predictImpl p.selfParams m image params = .ok r →
      (p.state ≠ .loaded → pluginPredict p image params = .error .notLoaded)
      ∧ pluginPredict (pluginLoad p (some m)) image params = .ok r
      ∧ pluginPredict (pluginUnload (pluginLoad p (some m))) image params = .error .notLoaded := by
  intro p m image params r h
  obtain ⟨sp, st, mo⟩ := p
  refine ⟨?_, ?_, ?_⟩
  · intro hs
    cases st with
    | loaded => exact absurd rfl hs
    | unloaded => cases mo <;> rfl
    | failed => cases mo <;> rfl
  · simp only [pluginPredict, pluginLoad]
    rw [h]
  · rfl

/-- C1, exercised on a freshly constructed plugin around a trivial wrapped
model. -/
theorem c1_witness :
    predictImpl (mkPlugin []).selfParams cxEmptyModel cxImg0 [] =
      .ok { shapes := [], description := "" }
    ∧ pluginPredict (mkPlugin []) cxImg0 [] = .error .notLoaded
    ∧ pluginPredict (pluginLoad (mkPlugin []) (some cxEmptyModel)) cxImg0 [] =
        .ok { shapes := [], description := "" }
    ∧ pluginPredict (pluginUnload (pluginLoad (mkPlugin []) (some cxEmptyModel))) cxImg0 [] =
        .error .notLoaded := by
  have h : predictImpl (mkPlugin []).selfParams cxEmptyModel cxImg0 [] =
      .ok { shapes := [], description := "" } := by decide
  have hc := c1_lifecycle_not_loaded (mkPlugin []) cxEmptyModel cxImg0 []
    { shapes := [], description := "" } h
  exact ⟨h, hc.1 (by decide), hc.2.1, hc.2.2⟩

/-- C2 counterexample: with `show_boxes=True` supplied in the call-time params
(and absent from the configured ones) a mask-bearing instance still produces
only a polygon — the call-time value does not make a rectangle be emitted. -/
theorem c2_counterexample :
    dictGet cxShowBoxesParams "show_boxes" = some (.bool true)
    ∧ (predictImpl [] cxMaskModel cxImg2 cxShowBoxesParams).map
        (fun r => r.shapes.map Shape.shape_type) = .ok ["polygon"] :=
  ⟨by decide, by decide⟩

/-- C2 amended: `conf_threshold`, `iou_threshold` and `epsilon_factor` fall
back call-time params → configured params → stated default, but `show_boxes`
is read only from the configured params: a call-time `show_boxes` entry never
affects the predict result. -/
theorem c2_param_fallback :
    (∀ (call self : Dict) (k : String) (d v : PValue),
      dictGet call k = some v → resolveParam call self k d = v)
    ∧ (∀ (call self : Dict) (k : String) (d v : PValue),
      dictGet call k = none → dictGet self k = some v → resolveParam call self k d = v)
    ∧ (∀ (call self : Dict) (k : String) (d : PValue),
      dictGet call k = none → dictGet self k = none → resolveParam call self k d = d)
    ∧ (∀ (selfParams : Dict) (model : WrappedModel) (image : Image) (params : Dict)
      (v : PValue),
      predictImpl selfParams model image (("show_boxes", v) :: params) =
        predictImpl selfParams model image params) := by
  refine ⟨?_, ?_, ?_, ?_⟩
  · intro call self k d v h; unfold resolveParam; rw [h]
  · intro call self k d v h1 h2; unfold resolveParam; rw [h1, h2]
  · intro call self k d h1 h2; unfold resolveParam; rw [h1, h2]
  · intro selfParams model image params v
    simp only [predictImpl]
    rw [resolveParam_cons_ne "show_boxes" v params selfParams "conf_threshold"
        (.num (1 / 4)) (by decide),
      resolveParam_cons_ne "show_boxes" v params selfParams "iou_threshold"
        (.num (7 / 10)) (by decide),
      resolveParam_cons_ne "show_boxes" v params selfParams "epsilon_factor"
        (.num (1 / 1000)) (by decide)]

/-- C2, exercised: a call-time `conf_threshold` wins, and prepending a
call-time `show_boxes` leaves a concrete predict call unchanged. -/
theorem c2_witness :
    resolveParam [("conf_threshold", PValue.num 1)] [] "conf_threshold" (.num (1 / 4)) =
      PValue.num 1
    ∧ predictImpl [] cxMaskModel cxImg2 (("show_boxes", PValue.bool true) :: []) =
        predictImpl [] cxMaskModel cxImg2 [] :=
  ⟨c2_param_fallback.1 [("conf_threshold", PValue.num 1)] [] "conf_threshold" (.num (1 / 4))
      (PValue.num 1) (by decide),
    c2_param_fallback.2.2.2 [] cxMaskModel cxImg2 [] (PValue.bool true)⟩

/-- C6 amended: an error while processing any single result aborts the whole
shape assembly — when one result in the list fails, the pass over the list
returns an error rather than the remaining instances' shapes. -/
theorem c6_error_aborts_call :
    ∀ (origW origH : ℕ) (eps : ℚ) (sb : Bool) (rs : List YoloResult) (r : YoloResult)
      (e : String),
      processResult origW origH eps sb r = .error e → r ∈ rs →
      ∃ msg, processResults origW origH eps sb rs = .error msg := by
  intro origW origH eps sb rs
  induction rs with
  | nil => intro r e h hm; simp at hm
  | cons x xs ih =>
    intro r e h hm
    unfold processResults
    cases hx : processResult origW origH eps sb x with
    | error e2 => exact ⟨e2, rfl⟩
    | ok s1 =>
      rcases List.mem_cons.mp hm with heq | hmem
      · subst heq; rw [h] at hx; exact absurd hx (by simp)
      · rcases ih r e h hmem with ⟨msg, hmsg⟩
        rw [hmsg]
        exact ⟨msg, rfl⟩

/-- C6, exercised: the malformed result (mask present, empty box list) fails
with IndexError and makes the whole pass fail. -/
theorem c6_witness :
    processResult 2 2 (1 / 1000) false cxBadResult =
      .error "IndexError: list index out of range"
    ∧ cxBadResult ∈ [cxBadResult, cxGoodResult]
    ∧ ∃ msg, processResults 2 2 (1 / 1000) false [cxBadResult, cxGoodResult] = .error msg :=
  ⟨by decide, List.mem_cons_self _ _,
    c6_error_aborts_call 2 2 (1 / 1000) false [cxBadResult, cxGoodResult] cxBadResult
      "IndexError: list index out of range" (by decide) (List.mem_cons_self _ _)⟩

/-- C6 counterexample: with a malformed first instance the whole predict call
fails with IndexError; the well-formed second instance's rectangle — which the
same pipeline returns when the malformed instance is absent — is not
returned. -/
theorem c6_counterexample :
    predictImpl [] cxBadThenGoodModel cxImg2 [] =
      .error "IndexError: list index out of range"
    ∧ predictImpl [] cxGoodOnlyModel cxImg2 [] =
        .ok { shapes := [rectShapeOf "cat" cxBox], description := "" } :=
  ⟨by decide, by decide⟩

/-- C7: `parse_prompts` coincides with the spec's description — split on any
separator character, trim each piece, drop empties, and (when deduplicating)
remove later duplicates keeping first occurrences in order, with
whitespace-only input yielding the empty sequence — and matches the spec's
worked examples. -/
theorem c7_parse_prompts_correct :
    (∀ (text : List Char) (seps : List (List Char)) (dd : Bool),
      parse_prompts text seps dd = parseSpec text seps dd)
    ∧ parse_prompts ("a, b, a.".toList) defaultSeparators true = ["a".toList, "b".toList]
    ∧ parse_prompts ("a, b, a.".toList) defaultSeparators false =
        ["a".toList, "b".toList, "a".toList]
    ∧ parse_prompts ("   ".toList) defaultSeparators true = [] := by
  refine ⟨?_, by decide, by decide, by decide⟩
  intro text seps dd
  unfold parse_prompts parseSpec
  by_cases h : pyStrip text = []
  · rw [if_pos h]
    rw [parse_pieces_all_ws_nil (listConcat id seps) (pyStrip_nil_all_ws h)]
    cases dd <;> simp [dedupFirst, specDedup, specDedupGo]
  · rw [if_neg h]
    cases dd
    · simp
    · simp [dedupFirst_eq_specDedup]

/-- C10: every successful predict call returns an empty description string. -/
theorem c10_description_always_empty :
    ∀ (selfParams : Dict) (model : WrappedModel) (image : Image) (params : Dict)
      (r : PredictResult),
      predictImpl selfParams model image params = .ok r → r.description = "" := by
  intro selfParams model image params r h
  simp only [predictImpl] at h
  split at h
  · exact absurd h (by simp)
  · split at h
    · exact absurd h (by simp)
    · rw [← Except.ok.inj h]

/-- C10, exercised on a trivial wrapped model. -/
theorem c10_witness :
    predictImpl [] cxEmptyModel cxImg0 [] = .ok { shapes := [], description := "" }
    ∧ ({ shapes := [], description := "" } : PredictResult).description = "" :=
  ⟨by decide, c10_description_always_empty [] cxEmptyModel cxImg0 []
    { shapes := [], description := "" } (by decide)⟩

end XAL
